import Mathlib

/-!
A shallow embedding of the dependency-tracking core of the
`pytest_dependency` plugin (single file `src/pytest_dependency.py`),
with theorems settling the specification's claims about it.

Modelling conventions:
* Python strings are `String`; absent values (`None`) are `Option`.
* A `DependencyItemStatus` object is mutable and shared between the
  canonical-name map `results` and the identifier index
  `results_by_name`; object identity is modelled by a heap
  (`List DependencyItemStatus`) addressed by `Nat` pointers, so that the
  two maps hold pointers into one store, exactly as the Python maps hold
  references to one object.
* `dict` / `defaultdict(set)` become functions into `Option`, where
  `none` models an absent key (Python's `dict.get` returning `None`).
* `pytest.fail` / `pytest.skip` / normal return become the inductive
  `CheckResult`, carrying the data the Python format strings interpolate.
* The regular expression
  `((?P<class_name>\w+)::)?(?P<func_name>\w+)(\[(?P<params_name>.*)\])?`
  applied with `re.match` (anchored at the start only) is translated into
  an explicit prefix parser with the same backtracking behaviour.
-/

namespace PytestDependency

/-- The three lifecycle phases of `DependencyItemStatus.Phases`. -/
inductive Phase where
  | setup
  | call
  | teardown
deriving DecidableEq, Repr

/-- The part of a pytest report that `DependencyItemStatus.addResult`
reads: `rep.when` (the phase) and `rep.outcome` (a string such as
`"passed"`, `"failed"` or `"skipped"`). -/
structure TestReport where
  phase : Phase
  outcome : String
deriving DecidableEq, Repr

/-- `DependencyItemStatus`: the per-item record mapping each of the three
phases to its outcome (`none` models the initial Python `None`). -/
structure DependencyItemStatus where
  setup : Option String
  call : Option String
  teardown : Option String
deriving DecidableEq, Repr

/-- `DependencyItemStatus.__init__`: all three slots unset. -/
def DependencyItemStatus.init : DependencyItemStatus :=
  { setup := none, call := none, teardown := none }

/-- `DependencyItemStatus.addResult`: `self.results[rep.when] = rep.outcome`
(overwrites on a repeated phase, last write wins). -/
def DependencyItemStatus.addResult (s : DependencyItemStatus) (rep : TestReport) :
    DependencyItemStatus :=
  match rep.phase with
  | Phase.setup => { s with setup := some rep.outcome }
  | Phase.call => { s with call := some rep.outcome }
  | Phase.teardown => { s with teardown := some rep.outcome }

/-- `DependencyItemStatus.isSuccess`:
`tuple(self.results.values()) == 3*('passed',)`. -/
def DependencyItemStatus.isSuccess (s : DependencyItemStatus) : Bool :=
  s.setup == some "passed" && s.call == some "passed" && s.teardown == some "passed"

/-! ### Name parsing (`node_name_regexp` and `_split_node_name`) -/

/-- Python's `\w` on the names at hand: word characters. -/
def isWordChar (c : Char) : Bool :=
  c.isAlphanum || c == '_'

/-- The characters of `cs` strictly before the last `']'` of `cs`, or
`none` when `cs` has no `']'`: the backtracking of the greedy `.*` in
`\[(?P<params_name>.*)\]`. -/
def beforeLastClose (cs : List Char) : Option (List Char) :=
  match cs.reverse.dropWhile (fun c => c ≠ ']') with
  | [] => none
  | _ :: rest => some rest.reverse

/-- The optional `(\[(?P<params_name>.*)\])?` group, matched at the rest of
the input: the group matches when the rest starts with `'['` and a `']'`
follows on the same line (`.` does not match a newline); it captures
everything between that `'['` and the last such `']'`. -/
def parseParams : List Char → Option String
  | '[' :: t => (beforeLastClose (t.takeWhile (fun c => c ≠ '\n'))).map List.asString
  | _ => none

/-- `_split_node_name`: `re.match` of the node-name regex, returning the
`(class_name, func_name, params_name)` groups; `none` models the
`AttributeError` Python raises when the regex does not match (no word
character at the start).  The optional class group matches exactly when
the maximal word run at the start is nonempty, is followed by `"::"`, and
a nonempty word run follows the separator (otherwise the engine
backtracks to the group being absent). -/
def splitNodeName (name : String) : Option (Option String × String × Option String) :=
  let cs := name.toList
  let w := cs.takeWhile isWordChar
  let rest0 := cs.dropWhile isWordChar
  if w = [] then
    none
  else
    match rest0 with
    | ':' :: ':' :: r1 =>
      let f := r1.takeWhile isWordChar
      let rest1 := r1.dropWhile isWordChar
      if f = [] then
        some (none, w.asString, parseParams rest0)
      else
        some (some w.asString, f.asString, parseParams rest1)
    | _ => some (none, w.asString, parseParams rest0)

/-! ### The dependency manager -/

/-- `DependencyManager` state: `heap` is the store of
`DependencyItemStatus` objects (pointer = index), `results` the map from
canonical node name to the (unique) pointer for that name, and
`results_by_name` the `defaultdict(set)` from identifier to the set of
pointers registered under it (`none` = key absent). -/
structure DependencyManager where
  heap : List DependencyItemStatus
  results : String → Option Nat
  results_by_name : String → Option (List Nat)

/-- `DependencyManager.__init__`: empty maps. -/
def DependencyManager.init : DependencyManager :=
  { heap := [], results := fun _ => none, results_by_name := fun _ => none }

/-- The arguments of one `addResult` call: `item.cls` (the test class's
name, when the item belongs to a class), `item.name` (the display name,
parametrization suffix included), the marker's explicit `name` kwarg, and
the report. -/
structure ItemCall where
  cls : Option String
  name : String
  depName : Option String
  rep : TestReport
deriving DecidableEq, Repr

/-- The canonical node name `addResult` computes:
`"{cls}::{name}"` when the item has a class, else `item.name`. -/
def nodeName (cls : Option String) (name : String) : String :=
  match cls with
  | some c => c ++ "::" ++ name
  | none => name

/-- Python `set.add` on the modelled set. -/
def setInsert (p : Nat) (s : List Nat) : List Nat :=
  if p ∈ s then s else s ++ [p]

/-- `self.results_by_name[k].add(p)` on the `defaultdict(set)`: creates
the entry when absent. -/
def addByName (m : String → Option (List Nat)) (k : String) (p : Nat) :
    String → Option (List Nat) :=
  fun q => if q = k then some (setInsert p ((m k).getD [])) else m q

/-- The loop `for name in dependency_ids: ... .add(dependency_status)`. -/
def addAll (ks : List String) (p : Nat) (m : String → Option (List Nat)) :
    String → Option (List Nat) :=
  ks.foldl (fun m k => addByName m k p) m

/-- The identifiers `addResult` registers the item under:
`(dependency_name,) + _split_node_name(node_name)`, filtered by Python
truthiness (`if name:` drops both `None` and the empty string). -/
def dependencyIds (c : ItemCall) : List String :=
  match splitNodeName (nodeName c.cls c.name) with
  | none => []
  | some (cn, fn, pn) =>
    ([c.depName, cn, some fn, pn].filterMap id).filter (fun s => s ≠ "")

/-- `DependencyManager.addResult`: computes the canonical node name,
`setdefault`s its status (allocating a fresh object only when the name is
new), applies the report to that status, and adds the status's pointer to
the result-set of every truthy identifier.  Returns `none` when
`_split_node_name` raises (malformed name). -/
def DependencyManager.addResult (mgr : DependencyManager) (c : ItemCall) :
    Option DependencyManager :=
  let n := nodeName c.cls c.name
  match splitNodeName n with
  | none => none
  | some _ =>
    let alloc :=
      match mgr.results n with
      | some p => (p, mgr.heap, mgr.results)
      | none =>
        (mgr.heap.length, mgr.heap ++ [DependencyItemStatus.init],
         fun q => if q = n then some mgr.heap.length else mgr.results q)
    let p := alloc.1
    let heap1 := alloc.2.1
    let results1 := alloc.2.2
    let heap2 := heap1.set p ((heap1.getD p DependencyItemStatus.init).addResult c.rep)
    some { heap := heap2, results := results1,
           results_by_name := addAll (dependencyIds c) p mgr.results_by_name }

/-- A whole session's sequence of `addResult` calls. -/
def runCalls (mgr : DependencyManager) : List ItemCall → Option DependencyManager
  | [] => some mgr
  | c :: cs =>
    match mgr.addResult c with
    | none => none
    | some mgr1 => runCalls mgr1 cs

/-- What `checkDepend` does to the requesting item: `pytest.fail` with the
unknown identifiers and the item name, `pytest.skip` with the item name
and the full dependency list, or fall through (the test proceeds). -/
inductive CheckResult where
  | fail (unknown : List String) (itemName : String)
  | skip (itemName : String) (dependencies : List String)
  | proceed
deriving DecidableEq, Repr

/-- `DependencyManager._split_unknown_dependencies`: partitions the
dependency list, in order, into the identifiers with no entry in
`results_by_name` and the result-sets of the known ones. -/
def DependencyManager.splitUnknownDependencies (mgr : DependencyManager) :
    List String → List String × List (List Nat)
  | [] => ([], [])
  | d :: rest =>
    let tail := mgr.splitUnknownDependencies rest
    match mgr.results_by_name d with
    | none => (d :: tail.1, tail.2)
    | some s => (tail.1, s :: tail.2)

/-- Dereference a pointer set into the statuses the checker iterates. -/
def ptrStatuses (mgr : DependencyManager) (ps : List Nat) : List DependencyItemStatus :=
  ps.filterMap (fun p => mgr.heap.get? p)

/-- `DependencyManager.checkDepend`, with the module-global
`_ignore_unknown` passed explicitly: fail on unknown identifiers unless
ignoring them, else skip exactly when the checker rejects the known
result-sets. -/
def DependencyManager.checkDepend (ignoreUnknown : Bool) (mgr : DependencyManager)
    (dependencies : List String) (itemName : String)
    (checker : List (List DependencyItemStatus) → Bool) : CheckResult :=
  let su := mgr.splitUnknownDependencies dependencies
  if ignoreUnknown = false ∧ su.1 ≠ [] then
    CheckResult.fail su.1 itemName
  else if checker (su.2.map (ptrStatuses mgr)) = false then
    CheckResult.skip itemName dependencies
  else
    CheckResult.proceed

/-! ### Pass-requirement policies -/

namespace PassRequirement

/-- `PassRequirement.all`:
`all(all(results) for results in dependency_results)`, the boolean
coercion of a status being `isSuccess`. -/
def all (dependency_results : List (List DependencyItemStatus)) : Bool :=
  dependency_results.all (fun results => results.all DependencyItemStatus.isSuccess)

/-- `PassRequirement.any`:
`any(any(results) for results in dependency_results)`. -/
def any (dependency_results : List (List DependencyItemStatus)) : Bool :=
  dependency_results.any (fun results => results.any DependencyItemStatus.isSuccess)

/-- `PassRequirement.each`:
`all(any(results) for results in dependency_results)`. -/
def each (dependency_results : List (List DependencyItemStatus)) : Bool :=
  dependency_results.all (fun results => results.any DependencyItemStatus.isSuccess)

end PassRequirement

/-- The three public methods `MethodsMeta` collects into
`PassRequirement._methods` (every attribute whose name does not start
with an underscore), as an enumerated type: Python callables compared by
identity become constructors. -/
inductive PolicyMethod where
  | all
  | any
  | each
deriving DecidableEq, Repr

/-- The callable each method constructor denotes. -/
def PolicyMethod.eval : PolicyMethod → List (List DependencyItemStatus) → Bool
  | PolicyMethod.all => PassRequirement.all
  | PolicyMethod.any => PassRequirement.any
  | PolicyMethod.each => PassRequirement.each

/-- The name-to-method dictionary `cls._methods` built by `MethodsMeta`. -/
def methodsTable : List (String × PolicyMethod) :=
  [("all", PolicyMethod.all), ("any", PolicyMethod.any), ("each", PolicyMethod.each)]

/-- The possible arguments of `_get_requirement_callable`: a string, a
reference to one of the three methods, or any other callable. -/
inductive PolicyInput where
  | nm (s : String)
  | method (m : PolicyMethod)
  | foreign
deriving DecidableEq, Repr

/-- `PassRequirement._get_requirement_callable`:
`method = methods.get(x, x)` resolves a known name and passes anything
else through; the `method not in methods.itervalues()` test then rejects
every value that is not one of the three methods, raising `ValueError`
(modelled as `Except.error` carrying the offending input). -/
def getRequirementCallable : PolicyInput → Except PolicyInput PolicyMethod
  | PolicyInput.nm s =>
    match methodsTable.lookup s with
    | some m => Except.ok m
    | none => Except.error (PolicyInput.nm s)
  | PolicyInput.method m => Except.ok m
  | PolicyInput.foreign => Except.error PolicyInput.foreign

/-- `_checkDepend` on a given manager: resolve the policy first, then run
the dependency check; a resolution error propagates before any policy is
evaluated. -/
def checkDependRun (ignoreUnknown : Bool) (mgr : DependencyManager)
    (dependencies : List String) (itemName : String) (xpassing : PolicyInput) :
    Except PolicyInput CheckResult :=
  match getRequirementCallable xpassing with
  | Except.error e => Except.error e
  | Except.ok m =>
    Except.ok (mgr.checkDepend ignoreUnknown dependencies itemName m.eval)

/-! ### Scope anchors and registry attachment (`getManager`) -/

/-- The host's scope-anchor nodes, abstracted to identities: the state
maps each anchor to the `dependencyManager` attribute attached to it
(`none` when `hasattr` is false). -/
def HostState : Type :=
  Nat → Option DependencyManager

/-- `DependencyManager.getManager`: return the registry attached to the
anchor, attaching a fresh one first when none is present.  The returned
pair is (updated host state, the registry the caller received). -/
def getManager (st : HostState) (a : Nat) : HostState × DependencyManager :=
  match st a with
  | some m => (st, m)
  | none =>
    ((fun x => if x = a then some DependencyManager.init else st x),
     DependencyManager.init)

/-- Writing back the (mutated) registry attached to an anchor. -/
def setManagerAt (st : HostState) (a : Nat) (m : DependencyManager) : HostState :=
  fun x => if x = a then some m else st x

/-- The outcome-observation hook's effect on the host state: fetch the
anchor's registry, record the result into it (mutation modelled as a
write-back). -/
def recordAt (st : HostState) (a : Nat) (c : ItemCall) : Option HostState :=
  let gm := getManager st a
  (gm.2.addResult c).map (fun m => setManagerAt gm.1 a m)

/-! ### The registry invariant and concrete instances -/

/-- The cross-reference invariant of the registry: every status pointer in
any identifier result-set is the pointer of some canonical name, and the
pointer of every canonical name appears in some identifier result-set. -/
def RegistryInvariant (mgr : DependencyManager) : Prop :=
  (∀ id s, mgr.results_by_name id = some s → ∀ p ∈ s, ∃ n, mgr.results n = some p) ∧
  (∀ n p, mgr.results n = some p → ∃ id s, mgr.results_by_name id = some s ∧ p ∈ s)

/-- A status whose three phases all recorded "passed" (a passing test). -/
def passedStatus : DependencyItemStatus :=
  { setup := some "passed", call := some "passed", teardown := some "passed" }

/-- A status whose call phase recorded "failed" (a failing test). -/
def failedStatus : DependencyItemStatus :=
  { setup := some "passed", call := some "failed", teardown := some "passed" }

/-- A parametrized, ungrouped test item: display name `test_a[1]`. -/
def itemParam : ItemCall :=
  { cls := none, name := "test_a[1]", depName := none,
    rep := { phase := Phase.call, outcome := "passed" } }

/-- The registry after recording `itemParam` into an empty registry. -/
def mgrParam : DependencyManager :=
  (DependencyManager.init.addResult itemParam).getD DependencyManager.init

/-- An ungrouped test whose bare name is `x`. -/
def itemBareX : ItemCall :=
  { cls := none, name := "x", depName := none,
    rep := { phase := Phase.call, outcome := "passed" } }

/-- A test in class `x` with bare name `y`: display name `x::y`. -/
def itemClsX : ItemCall :=
  { cls := some "x", name := "y", depName := none,
    rep := { phase := Phase.setup, outcome := "passed" } }

/-- The registry after recording `itemBareX` then `itemClsX`. -/
def mgrTwo : DependencyManager :=
  (runCalls DependencyManager.init [itemBareX, itemClsX]).getD DependencyManager.init

/-- The same test item `x` reported again in a different phase. -/
def itemBareX2 : ItemCall :=
  { cls := none, name := "x", depName := none,
    rep := { phase := Phase.teardown, outcome := "passed" } }

/-- The registry after recording `itemBareX` into an empty registry. -/
def mgrOnce : DependencyManager :=
  (DependencyManager.init.addResult itemBareX).getD DependencyManager.init

/-- The registry after additionally recording a second phase for the same
test. -/
def mgrTwice : DependencyManager :=
  (mgrOnce.addResult itemBareX2).getD DependencyManager.init

/-! ### Helper lemmas -/

theorem mem_setInsert_self (p : Nat) (s : List Nat) : p ∈ setInsert p s := by
  unfold setInsert; split
  · assumption
  · simp

theorem subset_setInsert (p : Nat) (s : List Nat) : s ⊆ setInsert p s := by
  unfold setInsert; split
  · exact fun _ hx => hx
  · intro x hx; simp [hx]

theorem mem_setInsert (p x : Nat) (s : List Nat) (h : x ∈ setInsert p s) : x ∈ s ∨ x = p := by
  unfold setInsert at h; split at h
  · exact Or.inl h
  · rcases List.mem_append.mp h with h1 | h1
    · exact Or.inl h1
    · simp at h1; exact Or.inr h1

theorem asString_ne_empty (l : List Char) (h : l ≠ []) : l.asString ≠ "" := by
  intro hc
  apply h
  have h2 : l.asString.toList = ("" : String).toList := by rw [hc]
  simpa using h2

theorem addAll_mono (p : Nat) :
    ∀ (ks : List String) (m : String → Option (List Nat)) (q : String) (s : List Nat),
      m q = some s → ∃ s', addAll ks p m q = some s' ∧ s ⊆ s'
  | [], _, _, s, h => ⟨s, h, fun _ hx => hx⟩
  | k :: ks, m, q, s, h => by
    have hstep : ∃ s1, addByName m k p q = some s1 ∧ s ⊆ s1 := by
      by_cases hqk : q = k
      · subst hqk
        exact ⟨setInsert p s, by simp [addByName, h], subset_setInsert p s⟩
      · exact ⟨s, by simp [addByName, hqk, h], fun _ hx => hx⟩
    rcases hstep with ⟨s1, h1, hsub1⟩
    rcases addAll_mono p ks (addByName m k p) q s1 h1 with ⟨s2, h2, hsub2⟩
    exact ⟨s2, h2, fun _ hx => hsub2 (hsub1 hx)⟩

theorem addAll_mem (p : Nat) :
    ∀ (ks : List String) (m : String → Option (List Nat)) (q : String),
      q ∈ ks → ∃ s, addAll ks p m q = some s ∧ p ∈ s
  | [], _, q, hq => absurd hq (List.not_mem_nil q)
  | k :: ks, m, q, hq => by
    by_cases h2 : q ∈ ks
    · exact addAll_mem p ks (addByName m k p) q h2
    · have hqk : q = k := by
        rcases List.mem_cons.mp hq with h | h
        · exact h
        · exact absurd h h2
      subst hqk
      have h1 : addByName m q p q = some (setInsert p ((m q).getD [])) := by
        simp [addByName]
      rcases addAll_mono p ks (addByName m q p) q _ h1 with ⟨s2, hs2, hsub⟩
      exact ⟨s2, hs2, hsub (mem_setInsert_self p _)⟩

theorem addAll_src (p : Nat) :
    ∀ (ks : List String) (m : String → Option (List Nat)) (q : String) (s : List Nat),
      addAll ks p m q = some s → ∀ x ∈ s, (∃ s0, m q = some s0 ∧ x ∈ s0) ∨ x = p
  | [], _, _, s, h, x, hx => Or.inl ⟨s, h, hx⟩
  | k :: ks, m, q, s, h, x, hx => by
    rcases addAll_src p ks (addByName m k p) q s h x hx with ⟨s0, h0, hx0⟩ | hxp
    · by_cases hqk : q = k
      · subst hqk
        have hs0 : s0 = setInsert p ((m q).getD []) := by
          simp [addByName] at h0
          exact h0.symm
        subst hs0
        rcases mem_setInsert p x _ hx0 with hmem | hxp
        · cases hmk : m q with
          | none => rw [hmk] at hmem; simp at hmem
          | some s1 =>
            rw [hmk] at hmem
            exact Or.inl ⟨s1, rfl, by simpa using hmem⟩
        · exact Or.inr hxp
      · refine Or.inl ⟨s0, ?_, hx0⟩
        rw [addByName] at h0
        simpa [hqk] using h0
    · exact Or.inr hxp

theorem addResult_none (mgr : DependencyManager) (c : ItemCall)
    (hsp : splitNodeName (nodeName c.cls c.name) = none) :
    mgr.addResult c = none := by
  simp [DependencyManager.addResult, hsp]

theorem addResult_existing (mgr : DependencyManager) (c : ItemCall) (p : Nat)
    (t : Option String × String × Option String)
    (hsp : splitNodeName (nodeName c.cls c.name) = some t)
    (hres : mgr.results (nodeName c.cls c.name) = some p) :
    mgr.addResult c = some
      { heap := mgr.heap.set p
          ((mgr.heap.getD p DependencyItemStatus.init).addResult c.rep),
        results := mgr.results,
        results_by_name := addAll (dependencyIds c) p mgr.results_by_name } := by
  simp [DependencyManager.addResult, hsp, hres]

theorem addResult_fresh (mgr : DependencyManager) (c : ItemCall)
    (t : Option String × String × Option String)
    (hsp : splitNodeName (nodeName c.cls c.name) = some t)
    (hres : mgr.results (nodeName c.cls c.name) = none) :
    mgr.addResult c = some
      { heap := (mgr.heap ++ [DependencyItemStatus.init]).set mgr.heap.length
          (((mgr.heap ++ [DependencyItemStatus.init]).getD mgr.heap.length
              DependencyItemStatus.init).addResult c.rep),
        results := fun q =>
          if q = nodeName c.cls c.name then some mgr.heap.length else mgr.results q,
        results_by_name := addAll (dependencyIds c) mgr.heap.length mgr.results_by_name } := by
  simp [DependencyManager.addResult, hsp, hres]

theorem splitNodeName_fn_ne (name : String) (cn : Option String) (fn : String)
    (pn : Option String) (h : splitNodeName name = some (cn, fn, pn)) : fn ≠ "" := by
  simp only [splitNodeName] at h
  split at h
  · exact absurd h (by simp)
  · rename_i hw
    split at h
    · split at h
      · injection h with h1
        injection h1 with _ h2
        injection h2 with h3 _
        exact h3 ▸ asString_ne_empty _ hw
      · rename_i hf
        injection h with h1
        injection h1 with _ h2
        injection h2 with h3 _
        exact h3 ▸ asString_ne_empty _ hf
    · injection h with h1
      injection h1 with _ h2
      injection h2 with h3 _
      exact h3 ▸ asString_ne_empty _ hw

theorem fn_mem_dependencyIds (c : ItemCall) (cn : Option String) (fn : String)
    (pn : Option String)
    (hsp : splitNodeName (nodeName c.cls c.name) = some (cn, fn, pn)) :
    fn ∈ dependencyIds c := by
  unfold dependencyIds
  rw [hsp]
  refine List.mem_filter.mpr ⟨?_, by simpa using splitNodeName_fn_ne _ _ _ _ hsp⟩
  refine List.mem_filterMap.mpr ⟨some fn, by simp, rfl⟩

theorem addResult_results_stable (mgr : DependencyManager) (c : ItemCall)
    (mgr' : DependencyManager) (h : mgr.addResult c = some mgr') :
    ∀ n q, mgr.results n = some q → mgr'.results n = some q := by
  intro n0 q h0
  cases hsp : splitNodeName (nodeName c.cls c.name) with
  | none => rw [addResult_none mgr c hsp] at h; cases h
  | some t =>
    cases hres : mgr.results (nodeName c.cls c.name) with
    | some p =>
      rw [addResult_existing mgr c p t hsp hres] at h
      cases h
      exact h0
    | none =>
      rw [addResult_fresh mgr c t hsp hres] at h
      cases h
      have hne : n0 ≠ nodeName c.cls c.name := by
        intro he
        rw [he, hres] at h0
        cases h0
      simpa [hne] using h0

theorem addResult_byName_mono (mgr : DependencyManager) (c : ItemCall)
    (mgr' : DependencyManager) (h : mgr.addResult c = some mgr') :
    ∀ id s, mgr.results_by_name id = some s →
      ∃ s', mgr'.results_by_name id = some s' ∧ s ⊆ s' := by
  intro id s h0
  cases hsp : splitNodeName (nodeName c.cls c.name) with
  | none => rw [addResult_none mgr c hsp] at h; cases h
  | some t =>
    cases hres : mgr.results (nodeName c.cls c.name) with
    | some p =>
      rw [addResult_existing mgr c p t hsp hres] at h
      cases h
      exact addAll_mono p (dependencyIds c) mgr.results_by_name id s h0
    | none =>
      rw [addResult_fresh mgr c t hsp hres] at h
      cases h
      exact addAll_mono mgr.heap.length (dependencyIds c) mgr.results_by_name id s h0

theorem addResult_node (mgr : DependencyManager) (c : ItemCall)
    (mgr' : DependencyManager) (h : mgr.addResult c = some mgr') :
    ∃ p, mgr'.results (nodeName c.cls c.name) = some p ∧
      ∀ id ∈ dependencyIds c, ∃ s, mgr'.results_by_name id = some s ∧ p ∈ s := by
  cases hsp : splitNodeName (nodeName c.cls c.name) with
  | none => rw [addResult_none mgr c hsp] at h; cases h
  | some t =>
    cases hres : mgr.results (nodeName c.cls c.name) with
    | some p =>
      rw [addResult_existing mgr c p t hsp hres] at h
      cases h
      exact ⟨p, hres, fun id hid =>
        addAll_mem p (dependencyIds c) mgr.results_by_name id hid⟩
    | none =>
      rw [addResult_fresh mgr c t hsp hres] at h
      cases h
      exact ⟨mgr.heap.length, by simp, fun id hid =>
        addAll_mem mgr.heap.length (dependencyIds c) mgr.results_by_name id hid⟩

theorem runCalls_persist :
    ∀ (cs : List ItemCall) (mgr mgr' : DependencyManager),
      runCalls mgr cs = some mgr' →
      (∀ n q, mgr.results n = some q → mgr'.results n = some q) ∧
      (∀ id s, mgr.results_by_name id = some s →
        ∃ s', mgr'.results_by_name id = some s' ∧ s ⊆ s')
  | [], _, _, h => by
    cases h
    exact ⟨fun _ _ h0 => h0, fun _ s h0 => ⟨s, h0, fun _ hx => hx⟩⟩
  | c :: cs, mgr, mgr', h => by
    cases ha : mgr.addResult c with
    | none => rw [runCalls, ha] at h; cases h
    | some mgr1 =>
      rw [runCalls, ha] at h
      rcases runCalls_persist cs mgr1 mgr' h with ⟨ih1, ih2⟩
      constructor
      · intro n q h0
        exact ih1 n q (addResult_results_stable mgr c mgr1 ha n q h0)
      · intro id s h0
        rcases addResult_byName_mono mgr c mgr1 ha id s h0 with ⟨s1, h1, hsub1⟩
        rcases ih2 id s1 h1 with ⟨s2, h2, hsub2⟩
        exact ⟨s2, h2, fun _ hx => hsub2 (hsub1 hx)⟩

theorem registryInvariant_init : RegistryInvariant DependencyManager.init := by
  constructor
  · intro id s h
    cases h
  · intro n p h
    cases h

theorem registry_invariant_step (mgr : DependencyManager) (c : ItemCall)
    (mgr' : DependencyManager) (hinv : RegistryInvariant mgr)
    (h : mgr.addResult c = some mgr') :
    RegistryInvariant mgr' ∧
      ∀ p, mgr.results (nodeName c.cls c.name) = some p →
        mgr'.results = mgr.results ∧ mgr'.heap.length = mgr.heap.length := by
  obtain ⟨inv1, inv2⟩ := hinv
  cases hsp : splitNodeName (nodeName c.cls c.name) with
  | none => rw [addResult_none mgr c hsp] at h; cases h
  | some t =>
    obtain ⟨cn, fn, pn⟩ := t
    cases hres : mgr.results (nodeName c.cls c.name) with
    | some p0 =>
      rw [addResult_existing mgr c p0 _ hsp hres] at h
      cases h
      refine ⟨⟨?_, ?_⟩, ?_⟩
      · intro id s hs x hx
        rcases addAll_src p0 (dependencyIds c) mgr.results_by_name id s hs x hx with
          ⟨s0, h0, hx0⟩ | hxp
        · exact inv1 id s0 h0 x hx0
        · exact ⟨nodeName c.cls c.name, hxp ▸ hres⟩
      · intro n p hp
        rcases inv2 n p hp with ⟨id, s, hs, hps⟩
        rcases addAll_mono p0 (dependencyIds c) mgr.results_by_name id s hs with
          ⟨s', hs', hsub⟩
        exact ⟨id, s', hs', hsub hps⟩
      · intro p _
        exact ⟨rfl, by simp⟩
    | none =>
      rw [addResult_fresh mgr c _ hsp hres] at h
      cases h
      refine ⟨⟨?_, ?_⟩, ?_⟩
      · intro id s hs x hx
        rcases addAll_src mgr.heap.length (dependencyIds c) mgr.results_by_name id s hs x hx
          with ⟨s0, h0, hx0⟩ | hxp
        · rcases inv1 id s0 h0 x hx0 with ⟨n, hn⟩
          refine ⟨n, ?_⟩
          have hne : n ≠ nodeName c.cls c.name := by
            intro he
            rw [he, hres] at hn
            cases hn
          simpa [hne] using hn
        · exact ⟨nodeName c.cls c.name, by simp [hxp]⟩
      · intro n p hp
        by_cases hne : n = nodeName c.cls c.name
        · subst hne
          have hpL : mgr.heap.length = p := by simpa using hp
          have hfn : fn ∈ dependencyIds c := fn_mem_dependencyIds c cn fn pn hsp
          rcases addAll_mem mgr.heap.length (dependencyIds c) mgr.results_by_name fn hfn
            with ⟨s, hs, hLs⟩
          exact ⟨fn, s, hs, hpL ▸ hLs⟩
        · have hp' : mgr.results n = some p := by simpa [hne] using hp
          rcases inv2 n p hp' with ⟨id, s, hs, hps⟩
          rcases addAll_mono mgr.heap.length (dependencyIds c) mgr.results_by_name id s hs
            with ⟨s', hs', hsub⟩
          exact ⟨id, s', hs', hsub hps⟩
      · intro p hp
        exact Option.noConfusion hp

theorem splitUnknown_eq (mgr : DependencyManager) :
    ∀ deps : List String,
      mgr.splitUnknownDependencies deps =
        (deps.filter (fun d => (mgr.results_by_name d).isNone),
         deps.filterMap mgr.results_by_name)
  | [] => rfl
  | d :: rest => by
    rw [DependencyManager.splitUnknownDependencies, splitUnknown_eq mgr rest]
    cases hd : mgr.results_by_name d <;>
      simp [hd, List.filter_cons, List.filterMap_cons]

theorem runCalls_each_indexed :
    ∀ (cs : List ItemCall) (mgr mgr' : DependencyManager),
      runCalls mgr cs = some mgr' →
      ∀ c ∈ cs, ∀ (cn : Option String) (fn : String) (pn : Option String),
        splitNodeName (nodeName c.cls c.name) = some (cn, fn, pn) →
        ∃ p s, mgr'.results (nodeName c.cls c.name) = some p ∧
          mgr'.results_by_name fn = some s ∧ p ∈ s
  | [], _, _, _, c, hc, _, _, _, _ => absurd hc (List.not_mem_nil c)
  | c0 :: cs, mgr, mgr', h, c, hc, cn, fn, pn, hsp => by
    cases ha : mgr.addResult c0 with
    | none => rw [runCalls, ha] at h; cases h
    | some mgr1 =>
      rw [runCalls, ha] at h
      rcases List.mem_cons.mp hc with hceq | hmem
      · subst hceq
        rcases addResult_node mgr c mgr1 ha with ⟨p, hp, hall⟩
        rcases hall fn (fn_mem_dependencyIds c cn fn pn hsp) with ⟨s, hs, hps⟩
        rcases runCalls_persist cs mgr1 mgr' h with ⟨pers1, pers2⟩
        rcases pers2 fn s hs with ⟨s', hs', hsub⟩
        exact ⟨p, s', pers1 _ p hp, hs', hsub hps⟩
      · exact runCalls_each_indexed cs mgr1 mgr' h c hmem cn fn pn hsp

/-- C1 counterexample: after recording the parametrized test `test_a[1]`
into an empty registry, its status (pointer `0`) is stored under the
canonical name in `results` and indexed under the bare name `test_a` and
the parametrization suffix `1`, but the identifier index has NO entry at
all for the canonical qualified name `test_a[1]`: a parametrized test
cannot be looked up under its full qualified name with bracketed
suffix. -/
theorem canonical_name_not_indexed :
    (DependencyManager.init.addResult itemParam).map
        (fun m => (m.results "test_a[1]", m.results_by_name "test_a[1]",
          m.results_by_name "test_a", m.results_by_name "1")) =
      some (some 0, none, some [0], some [0]) := by decide

/-- C1 (amended): after every successful `addResult` call, the item's
status pointer is stored under its canonical node name and is a member of
the identifier-index result-set of every truthy identifier among
{explicit dependency name, group (class) name, bare function name,
parametrization suffix}; the canonical qualified name itself is not a
separate index key. -/
theorem addResult_indexes_truthy_identifiers (mgr : DependencyManager) (c : ItemCall)
    (mgr' : DependencyManager) (h : mgr.addResult c = some mgr') :
    ∃ p, mgr'.results (nodeName c.cls c.name) = some p ∧
      ∀ id ∈ dependencyIds c, ∃ s, mgr'.results_by_name id = some s ∧ p ∈ s :=
  addResult_node mgr c mgr' h

/-- Witness for C1 (amended) at the concrete item `test_a[1]`. -/
theorem addResult_indexes_truthy_identifiers_witness :
    ∃ p, mgrParam.results (nodeName itemParam.cls itemParam.name) = some p ∧
      ∀ id ∈ dependencyIds itemParam,
        ∃ s, mgrParam.results_by_name id = some s ∧ p ∈ s :=
  addResult_indexes_truthy_identifiers DependencyManager.init itemParam mgrParam rfl

/-- C2 counterexample: recording the ungrouped test `x` (pointer `0`) and
the grouped test `x::y` (pointer `1`) makes the result-set of the bare
function name `x` equal `{0, 1}`, although the display name `x::y` of
pointer `1` has bare name `y`, not `x` — the set is not exactly the
statuses of the items whose bare name is `x` (that would be `{0}`): a
class name equal to a bare function name pollutes the bare name's
result-set. -/
theorem bare_name_result_set_not_exact :
    (runCalls DependencyManager.init [itemBareX, itemClsX]).map
        (fun m => (m.results "x", m.results "x::y", m.results_by_name "x")) =
      some (some 0, some 1, some [0, 1]) ∧
    (splitNodeName "x::y").map (fun t => t.2.1) = some "y" :=
  ⟨by decide, by decide⟩

/-- C2 (amended): for every sequence of recorded test items starting from
an empty registry, the identifier-index result-set for a bare function
name contains the status of every recorded item whose display name has
that bare name, regardless of group prefix or parametrization suffix
(the set may additionally contain statuses registered under the same
string by another addressing scheme). -/
theorem bare_name_matches_all_variants (cs : List ItemCall) (mgr' : DependencyManager)
    (h : runCalls DependencyManager.init cs = some mgr') :
    ∀ c ∈ cs, ∀ (cn : Option String) (fn : String) (pn : Option String),
      splitNodeName (nodeName c.cls c.name) = some (cn, fn, pn) →
      ∃ p s, mgr'.results (nodeName c.cls c.name) = some p ∧
        mgr'.results_by_name fn = some s ∧ p ∈ s :=
  runCalls_each_indexed cs DependencyManager.init mgr' h

/-- Witness for C2 (amended): the grouped test `x::y` is reachable under
its bare name `y`. -/
theorem bare_name_matches_all_variants_witness :
    ∃ p s, mgrTwo.results (nodeName itemClsX.cls itemClsX.name) = some p ∧
      mgrTwo.results_by_name "y" = some s ∧ p ∈ s :=
  bare_name_matches_all_variants [itemBareX, itemClsX] mgrTwo rfl itemClsX
    (by decide) (some "x") "y" none (by decide)

/-- C3: the `all` policy is true iff every status in every result-set is
successful; for G1 = {pass, pass} and G2 = {pass, fail} it is false. -/
theorem all_policy_spec :
    (∀ rs : List (List DependencyItemStatus),
        PassRequirement.all rs = true ↔
          ∀ r ∈ rs, ∀ s ∈ r, s.isSuccess = true) ∧
      PassRequirement.all
        [[passedStatus, passedStatus], [passedStatus, failedStatus]] = false := by
  constructor
  · intro rs
    simp [PassRequirement.all]
  · decide

/-- C4: the `each` policy is true iff every result-set has at least one
successful status; for G1 = {pass, pass} and G2 = {pass, fail} it is true
even though G2 has a failing member. -/
theorem each_policy_spec :
    (∀ rs : List (List DependencyItemStatus),
        PassRequirement.each rs = true ↔
          ∀ r ∈ rs, ∃ s ∈ r, s.isSuccess = true) ∧
      PassRequirement.each
        [[passedStatus, passedStatus], [passedStatus, failedStatus]] = true := by
  constructor
  · intro rs
    simp [PassRequirement.each]
  · decide

/-- C7: after any sequence of phase reports, `isSuccess` is true iff all
three phase slots hold `passed`; it is false whenever a slot is unset or
non-passed. -/
theorem isSuccess_iff_all_phases_passed :
    ∀ reps : List TestReport,
      (reps.foldl DependencyItemStatus.addResult DependencyItemStatus.init).isSuccess
          = true ↔
        ((reps.foldl DependencyItemStatus.addResult DependencyItemStatus.init).setup
            = some "passed" ∧
         (reps.foldl DependencyItemStatus.addResult DependencyItemStatus.init).call
            = some "passed" ∧
         (reps.foldl DependencyItemStatus.addResult DependencyItemStatus.init).teardown
            = some "passed") := by
  intro reps
  simp [DependencyItemStatus.isSuccess, and_assoc]

theorem checkDepend_eq (ig : Bool) (mgr : DependencyManager) (deps : List String)
    (itemName : String) (checker : List (List DependencyItemStatus) → Bool) :
    mgr.checkDepend ig deps itemName checker =
      if ig = false ∧ (mgr.splitUnknownDependencies deps).1 ≠ [] then
        CheckResult.fail (mgr.splitUnknownDependencies deps).1 itemName
      else if checker (((mgr.splitUnknownDependencies deps).2).map (ptrStatuses mgr))
          = false then
        CheckResult.skip itemName deps
      else CheckResult.proceed := rfl

/-- C5: with ignore-unknown off, any unknown identifier makes the check
fail, naming exactly the unknown identifiers and the requesting test;
with ignore-unknown on, the policy is evaluated over the known
result-sets only (the unknowns excluded, in order), and over an empty
known collection `all` and `each` are true while `any` is false. -/
theorem unknown_dependency_handling :
    (∀ (mgr : DependencyManager) (deps : List String) (itemName : String)
        (checker : List (List DependencyItemStatus) → Bool),
        (∃ d, d ∈ deps ∧ mgr.results_by_name d = none) →
          mgr.checkDepend false deps itemName checker =
            CheckResult.fail
              (deps.filter (fun d => (mgr.results_by_name d).isNone)) itemName) ∧
    (∀ (mgr : DependencyManager) (deps : List String) (itemName : String)
        (checker : List (List DependencyItemStatus) → Bool),
        mgr.checkDepend true deps itemName checker =
          if checker ((deps.filterMap mgr.results_by_name).map (ptrStatuses mgr)) = true
          then CheckResult.proceed
          else CheckResult.skip itemName deps) ∧
    PassRequirement.all [] = true ∧ PassRequirement.each [] = true ∧
      PassRequirement.any [] = false := by
  refine ⟨?_, ?_, rfl, rfl, rfl⟩
  · rintro mgr deps itemName checker ⟨d, hd, hnone⟩
    have hmem : d ∈ deps.filter (fun d => (mgr.results_by_name d).isNone) :=
      List.mem_filter.mpr ⟨hd, by simp [hnone]⟩
    have hne : deps.filter (fun d => (mgr.results_by_name d).isNone) ≠ [] :=
      List.ne_nil_of_mem hmem
    rw [checkDepend_eq, splitUnknown_eq]
    exact if_pos ⟨rfl, hne⟩
  · intro mgr deps itemName checker
    rw [checkDepend_eq, splitUnknown_eq]
    rw [if_neg (fun hand => Bool.noConfusion hand.1)]
    cases hc : checker
        ((deps.filterMap mgr.results_by_name).map (ptrStatuses mgr)) <;>
      simp [hc]

/-- C6: when the check does not fail on unknown identifiers (ignore mode
on, or no unknowns), the requesting test is skipped — with the requesting
test's name and the full original dependency list — exactly when the
policy over the known result-sets is false, and proceeds exactly when it
is true. -/
theorem skip_iff_policy_false (ig : Bool) (mgr : DependencyManager)
    (deps : List String) (itemName : String)
    (checker : List (List DependencyItemStatus) → Bool)
    (hnf : ¬(ig = false ∧ (mgr.splitUnknownDependencies deps).1 ≠ [])) :
    (mgr.checkDepend ig deps itemName checker = CheckResult.skip itemName deps ↔
      checker (((mgr.splitUnknownDependencies deps).2).map (ptrStatuses mgr))
        = false) ∧
    (mgr.checkDepend ig deps itemName checker = CheckResult.proceed ↔
      checker (((mgr.splitUnknownDependencies deps).2).map (ptrStatuses mgr))
        = true) := by
  rw [checkDepend_eq, if_neg hnf]
  cases hc : checker (((mgr.splitUnknownDependencies deps).2).map (ptrStatuses mgr)) <;>
    simp [hc]

/-- Witness for C6 at a concrete manager, item and dependency list. -/
theorem skip_iff_policy_false_witness :
    (DependencyManager.init.checkDepend true ["a"] "t" PassRequirement.any =
        CheckResult.skip "t" ["a"] ↔
      PassRequirement.any
          (((DependencyManager.init.splitUnknownDependencies ["a"]).2).map
            (ptrStatuses DependencyManager.init)) = false) ∧
    (DependencyManager.init.checkDepend true ["a"] "t" PassRequirement.any =
        CheckResult.proceed ↔
      PassRequirement.any
          (((DependencyManager.init.splitUnknownDependencies ["a"]).2).map
            (ptrStatuses DependencyManager.init)) = true) :=
  skip_iff_policy_false true DependencyManager.init ["a"] "t" PassRequirement.any
    (by simp)

/-- C9: policy resolution maps each of the three names to its method,
passes a direct method reference through unchanged, and rejects every
other name and every foreign callable with an error; a resolution error
propagates from `checkDependRun` before any policy evaluation or
dependency check happens. -/
theorem policy_resolution_spec :
    getRequirementCallable (PolicyInput.nm "all") = Except.ok PolicyMethod.all ∧
    getRequirementCallable (PolicyInput.nm "any") = Except.ok PolicyMethod.any ∧
    getRequirementCallable (PolicyInput.nm "each") = Except.ok PolicyMethod.each ∧
    (∀ m : PolicyMethod,
      getRequirementCallable (PolicyInput.method m) = Except.ok m) ∧
    (∀ s : String, s ≠ "all" → s ≠ "any" → s ≠ "each" →
      getRequirementCallable (PolicyInput.nm s) = Except.error (PolicyInput.nm s)) ∧
    getRequirementCallable PolicyInput.foreign = Except.error PolicyInput.foreign ∧
    (∀ (ig : Bool) (mgr : DependencyManager) (deps : List String)
        (itemName : String) (inp e : PolicyInput),
      getRequirementCallable inp = Except.error e →
        checkDependRun ig mgr deps itemName inp = Except.error e) := by
  refine ⟨rfl, rfl, rfl, fun m => rfl, ?_, rfl, ?_⟩
  · intro s h1 h2 h3
    have hb1 : (s == "all") = false := beq_eq_false_iff_ne.mpr h1
    have hb2 : (s == "any") = false := beq_eq_false_iff_ne.mpr h2
    have hb3 : (s == "each") = false := beq_eq_false_iff_ne.mpr h3
    simp [getRequirementCallable, methodsTable, List.lookup, hb1, hb2, hb3]
  · intro ig mgr deps itemName inp e he
    simp [checkDependRun, he]

/-- C10: fetching a scope anchor's registry is idempotent (the first call
attaches one, every later call returns the very same one with no state
change), attaches the registry to that anchor only, and recording a
result under one anchor leaves every other anchor's registry untouched. -/
theorem getManager_idempotent_and_independent :
    ∀ (st : HostState) (a b : Nat) (c : ItemCall),
      getManager (getManager st a).1 a = getManager st a ∧
      (getManager st a).1 a = some (getManager st a).2 ∧
      (b ≠ a → (getManager st a).1 b = st b) ∧
      (∀ st', recordAt st a c = some st' → b ≠ a → st' b = st b) := by
  intro st a b c
  cases hsa : st a with
  | some m =>
    refine ⟨by simp [getManager, hsa], by simp [getManager, hsa],
      fun _ => by simp [getManager, hsa], ?_⟩
    intro st' hrec hba
    simp only [recordAt, getManager, hsa] at hrec
    cases hadd : m.addResult c with
    | none => rw [hadd] at hrec; cases hrec
    | some m1 =>
      rw [hadd] at hrec
      cases hrec
      simp [setManagerAt, hba]
  | none =>
    refine ⟨by simp [getManager, hsa], by simp [getManager, hsa],
      fun hba => by simp [getManager, hsa, hba], ?_⟩
    intro st' hrec hba
    simp only [recordAt, getManager, hsa] at hrec
    cases hadd : DependencyManager.init.addResult c with
    | none => rw [hadd] at hrec; cases hrec
    | some m1 =>
      rw [hadd] at hrec
      cases hrec
      simp [setManagerAt, hba, hsa]

/-- C8: every `addResult` call preserves the registry invariant (every
status pointer in the identifier index is a canonical-name entry and vice
versa), and recording a further outcome for an already-known canonical
name reuses the existing status: the canonical map is unchanged and no
new status object is allocated. -/
theorem registry_invariant_preserved (mgr : DependencyManager) (c : ItemCall)
    (mgr' : DependencyManager) (hinv : RegistryInvariant mgr)
    (h : mgr.addResult c = some mgr') :
    RegistryInvariant mgr' ∧
      ∀ p, mgr.results (nodeName c.cls c.name) = some p →
        mgr'.results = mgr.results ∧ mgr'.heap.length = mgr.heap.length :=
  registry_invariant_step mgr c mgr' hinv h

/-- Witness for C8: recording `x` twice (two phases) keeps the invariant
and reuses the status recorded the first time. -/
theorem registry_invariant_preserved_witness :
    RegistryInvariant mgrTwice ∧
      ∀ p, mgrOnce.results (nodeName itemBareX2.cls itemBareX2.name) = some p →
        mgrTwice.results = mgrOnce.results ∧
          mgrTwice.heap.length = mgrOnce.heap.length :=
  registry_invariant_preserved mgrOnce itemBareX2 mgrTwice
    (registry_invariant_preserved DependencyManager.init itemBareX mgrOnce
      registryInvariant_init rfl).1 rfl

end PytestDependency
